import Mathlib

/- Shallow embedding of the repository yashag66/inventai.

   Source files:
   * q4-algo-median-of-two-arrays/solution.py
   * q5-dataeng-forecasting-features/solution.py

   Modelling conventions: numeric quantities are rationals, calendar dates
   and identifiers (including brand names, which the source compares only
   for equality) are integers.  A pandas DataFrame is a list of records in
   row order.  Missing values (NaN produced by shift) are Option values.
   A groupby/transform places, at every row, the value the transform
   computes for that row's group at that row's position within the group;
   pandas keeps the original row order inside each group. -/

/-! ## q4-algo-median-of-two-arrays/solution.py -/

/-- Python merge_sorted_arrays: two-pointer merge of two lists, taking from
the first list on ties, then appending whatever remains. -/
def merge_sorted_arrays : List ℚ → List ℚ → List ℚ
  | [], ys => ys
  | x :: xs, [] => x :: xs
  | x :: xs, y :: ys =>
    if x ≤ y then x :: merge_sorted_arrays xs (y :: ys)
    else y :: merge_sorted_arrays (x :: xs) ys
termination_by xs ys => xs.length + ys.length

/-- Python find_median: n // 2 midpoint indexing; for even length the mean
of the two middle elements.  Out-of-range indexing (possible only for the
empty list, where Python would raise) is totalised with a default. -/
def find_median (sorted_array : List ℚ) : ℚ :=
  let n := sorted_array.length
  let mid := n / 2
  if n % 2 = 1 then sorted_array.getD mid 0
  else (sorted_array.getD (mid - 1) 0 + sorted_array.getD mid 0) / 2

/-! ## q5-dataeng-forecasting-features/solution.py: data model -/

/-- One row of sales.csv: columns date, product, store, quantity. -/
structure SalesRow where
  date : Int
  product : Int
  store : Int
  quantity : ℚ
  deriving DecidableEq, Inhabited

/-- One row of product.csv: its id (the join key for sales.product) and its
brand name (the join key into brand.csv).  Other attribute columns play no
role in any claim and are omitted. -/
structure ProductRow where
  id : Int
  brand : Int
  deriving DecidableEq, Inhabited

/-- One row of brand.csv: its name (join key) and its id, which becomes the
column id_brand after the suffixed merge. -/
structure BrandRow where
  name : Int
  id : Int
  deriving DecidableEq, Inhabited

/-- One row of store.csv: its id (the join key for sales.store). -/
structure StoreRow where
  id : Int
  deriving DecidableEq, Inhabited

/-- A row of the merged data cube built by DataLoader.load_data.  The
suffixed duplicate key columns (id, id_store) merely repeat the join keys
product and store and are omitted. -/
structure MergedRow where
  date : Int
  product : Int
  store : Int
  quantity : ℚ
  brand : Int
  id_brand : Int
  deriving DecidableEq, Inhabited

/-- DataLoader.load_data: three successive inner merges
sales * product (on product = id), then * brand (on brand = name), then
* store (on store = id).  A pandas inner merge keeps the left rows in
order and, for each, emits one output row per matching right row in right
order; a left row with no match is dropped. -/
def load_data (sales : List SalesRow) (product : List ProductRow)
    (brand : List BrandRow) (store : List StoreRow) : List MergedRow :=
  sales.flatMap fun s =>
    (product.filter fun p => decide (p.id = s.product)).flatMap fun p =>
      (brand.filter fun b => decide (b.name = p.brand)).flatMap fun b =>
        (store.filter fun _st => decide (_st.id = s.store)).map fun _st =>
          { date := s.date, product := s.product, store := s.store,
            quantity := s.quantity, brand := p.brand, id_brand := b.id }

/-- The block of merged rows a single sales fact row contributes to
load_data: its product matches, each matching product's brand matches,
and the store matches. -/
def rowBlock (product : List ProductRow) (brand : List BrandRow)
    (store : List StoreRow) (s : SalesRow) : List MergedRow :=
  (product.filter fun p => decide (p.id = s.product)).flatMap fun p =>
    (brand.filter fun b => decide (b.name = p.brand)).flatMap fun b =>
      (store.filter fun _st => decide (_st.id = s.store)).map fun _st =>
        { date := s.date, product := s.product, store := s.store,
          quantity := s.quantity, brand := p.brand, id_brand := b.id }

/-! ## FeatureCalculator.compute_features -/

/-- The mean over the trailing window of width at most 7 ending at
position i: rolling(7, min_periods=1).mean() at position i. -/
def windowMean7 (xs : List ℚ) (i : Nat) : ℚ :=
  let w := (xs.take (i + 1)).drop (i + 1 - 7)
  w.sum / (w.length : ℚ)

/-- Series.rolling(7, min_periods=1).mean(): at every position the mean of
the up to 7 entries ending there. -/
def rolling7mean (xs : List ℚ) : List ℚ :=
  (List.range xs.length).map fun i => windowMean7 xs i

/-- Series.shift(7): the value 7 positions earlier, missing for the first
seven positions. -/
def shift7 (xs : List ℚ) : List (Option ℚ) :=
  (List.range xs.length).map fun i => if i < 7 then none else xs[i - 7]?

/-- Grouping key for MA7_P and LAG7_P: groupby [product_id, store_id]. -/
def pkey (r : MergedRow) : Int × Int := (r.product, r.store)

/-- Grouping key for sales_brand: groupby [brand_id, store_id, date]. -/
def bdkey (r : MergedRow) : Int × Int × Int := (r.id_brand, r.store, r.date)

/-- Grouping key for MA7_B and LAG7_B: groupby [brand_id, store_id]. -/
def bskey (r : MergedRow) : Int × Int := (r.id_brand, r.store)

/-- Grouping key for sales_store: groupby [store_id, date]. -/
def sdkey (r : MergedRow) : Int × Int := (r.store, r.date)

/-- Grouping key for MA7_S and LAG7_S: groupby store_id. -/
def skey (r : MergedRow) : Int := r.store

/-- The subsequence of the table holding the rows of r's group under key k,
in table order: the Series a groupby transform hands to its lambda. -/
def grp {K : Type} [DecidableEq K] (k : MergedRow → K) (whole : List MergedRow)
    (r : MergedRow) : List MergedRow :=
  whole.filter fun x => decide (k x = k r)

/-- The position r would occupy within its group, given the rows placed
before it: how a transform result scatters back to the original index. -/
def grpRank {K : Type} [DecidableEq K] (k : MergedRow → K) (seen : List MergedRow)
    (r : MergedRow) : Nat :=
  seen.countP fun x => decide (k x = k r)

/-- The sales_brand column value at row x: transform("sum") over the
(brand_id, store_id, date) group of x. -/
def salesBrandOf (whole : List MergedRow) (x : MergedRow) : ℚ :=
  ((grp bdkey whole x).map (·.quantity)).sum

/-- The sales_store column value at row x: transform("sum") over the
(store_id, date) group of x. -/
def salesStoreOf (whole : List MergedRow) (x : MergedRow) : ℚ :=
  ((grp sdkey whole x).map (·.quantity)).sum

/-- One row of the frame compute_features returns: exactly the thirteen
selected output columns. -/
structure FeatureRow where
  product_id : Int
  store_id : Int
  brand_id : Int
  date : Int
  sales_product : ℚ
  MA7_P : ℚ
  LAG7_P : Option ℚ
  sales_brand : ℚ
  MA7_B : ℚ
  LAG7_B : Option ℚ
  sales_store : ℚ
  MA7_S : ℚ
  LAG7_S : Option ℚ
  deriving DecidableEq, Inhabited

/-- The feature columns of the row r, with whole the full (renamed) frame
and seen the rows preceding r.  Each windowed column looks up, at r's
position within its group, the rolling mean or shift of that group's
column; sales_brand and sales_store are the group sums. -/
def featRow (whole seen : List MergedRow) (r : MergedRow) : FeatureRow where
  product_id := r.product
  store_id := r.store
  brand_id := r.id_brand
  date := r.date
  sales_product := r.quantity
  MA7_P := (rolling7mean ((grp pkey whole r).map (·.quantity))).getD (grpRank pkey seen r) 0
  LAG7_P := (shift7 ((grp pkey whole r).map (·.quantity))).getD (grpRank pkey seen r) none
  sales_brand := salesBrandOf whole r
  MA7_B := (rolling7mean ((grp bskey whole r).map (salesBrandOf whole))).getD (grpRank bskey seen r) 0
  LAG7_B := (shift7 ((grp bskey whole r).map (salesBrandOf whole))).getD (grpRank bskey seen r) none
  sales_store := salesStoreOf whole r
  MA7_S := (rolling7mean ((grp skey whole r).map (salesStoreOf whole))).getD (grpRank skey seen r) 0
  LAG7_S := (shift7 ((grp skey whole r).map (salesStoreOf whole))).getD (grpRank skey seen r) none

/-- Row-by-row traversal building the feature frame; seen accumulates the
rows already emitted so each row is placed at its own group position. -/
def goFeat (whole : List MergedRow) : List MergedRow → List MergedRow → List FeatureRow
  | _seen, [] => []
  | seen, r :: rest => featRow whole seen r :: goFeat whole (seen ++ [r]) rest

/-- FeatureCalculator.compute_features: the renamed input frame with the
six derived feature columns and two aggregate columns attached, one output
row per input row in input order. -/
def compute_features (rows : List MergedRow) : List FeatureRow :=
  goFeat rows [] rows

/-! ## WMAPECalculator.compute_wmape -/

/-- dropna keeps a feature row iff no column is missing; the only columns
that can be missing are the three shifted lag columns. -/
def dropnaRow (f : FeatureRow) : Bool :=
  f.LAG7_P.isSome && f.LAG7_B.isSome && f.LAG7_S.isSome

/-- The scorer's grouping key: groupby [product_id, store_id, brand_id]. -/
def wkey (f : FeatureRow) : Int × Int × Int := (f.product_id, f.store_id, f.brand_id)

/-- Lexicographic order on integer pairs. -/
def lexLE2 (a b : Int × Int) : Prop :=
  a.1 < b.1 ∨ (a.1 = b.1 ∧ a.2 ≤ b.2)

/-- Lexicographic order on integer triples. -/
def lexLE3 (a b : Int × Int × Int) : Prop :=
  a.1 < b.1 ∨ (a.1 = b.1 ∧ lexLE2 a.2 b.2)

/-- Lexicographic order on integer quadruples. -/
def lexLE4 (a b : Int × Int × Int × Int) : Prop :=
  a.1 < b.1 ∨ (a.1 = b.1 ∧ lexLE3 a.2 b.2)

instance : DecidableRel lexLE2 := fun a b => by
  unfold lexLE2; exact inferInstance

instance : DecidableRel lexLE3 := fun a b => by
  unfold lexLE3; exact inferInstance

instance : DecidableRel lexLE4 := fun a b => by
  unfold lexLE4; exact inferInstance

instance : IsTotal (Int × Int) lexLE2 where
  total a b := by unfold lexLE2; omega

instance : IsTrans (Int × Int) lexLE2 where
  trans a b c hab hbc := by revert hab hbc; unfold lexLE2; omega

instance : IsAntisymm (Int × Int) lexLE2 where
  antisymm a b hab hba := by
    revert hab hba; unfold lexLE2
    rcases a with ⟨a1, a2⟩; rcases b with ⟨b1, b2⟩
    intro h1 h2
    simp only [Prod.mk.injEq]
    omega

instance : IsTotal (Int × Int × Int) lexLE3 where
  total a b := by
    unfold lexLE3
    rcases le_or_lt a.1 b.1 with h | h
    · rcases lt_or_eq_of_le h with h | h
      · exact Or.inl (Or.inl h)
      · rcases total_of lexLE2 a.2 b.2 with h2 | h2
        · exact Or.inl (Or.inr ⟨h, h2⟩)
        · exact Or.inr (Or.inr ⟨h.symm, h2⟩)
    · exact Or.inr (Or.inl h)

instance : IsTrans (Int × Int × Int) lexLE3 where
  trans a b c hab hbc := by
    unfold lexLE3 at hab hbc ⊢
    rcases hab with h | ⟨he, h2⟩
    · rcases hbc with h3 | ⟨he3, _⟩
      · exact Or.inl (h.trans h3)
      · exact Or.inl (he3 ▸ h)
    · rcases hbc with h3 | ⟨he3, h4⟩
      · exact Or.inl (he ▸ h3)
      · exact Or.inr ⟨he.trans he3, IsTrans.trans _ _ _ h2 h4⟩

instance : IsAntisymm (Int × Int × Int) lexLE3 where
  antisymm a b hab hba := by
    unfold lexLE3 at hab hba
    rcases hab with h | ⟨he, h2⟩
    · rcases hba with h3 | ⟨he3, _⟩
      · exact absurd (h.trans h3) (lt_irrefl _)
      · exact absurd (he3 ▸ h) (lt_irrefl _)
    · rcases hba with h3 | ⟨he3, h4⟩
      · exact absurd (he ▸ h3) (lt_irrefl _)
      · exact Prod.ext he (antisymm h2 h4)

/-- WMAPECalculator output row: reset_index(name="WMAPE"). -/
structure WmapeRow where
  product_id : Int
  store_id : Int
  brand_id : Int
  WMAPE : ℚ
  deriving DecidableEq, Inhabited

/-- WMAPECalculator.compute_wmape: dropna, then one row per
(product_id, store_id, brand_id) group with the group's
sum of absolute errors over the group's sum of sales_product.  pandas
groupby sorts the group keys lexicographically (sort=True). -/
def compute_wmape (feature_df : List FeatureRow) : List WmapeRow :=
  let df := feature_df.filter dropnaRow
  let keys := List.insertionSort lexLE3 (df.map wkey).dedup
  keys.map fun k =>
    let g := df.filter fun f => decide (wkey f = k)
    { product_id := k.1, store_id := k.2.1, brand_id := k.2.2,
      WMAPE := (g.map fun f => |f.sales_product - f.MA7_P|).sum /
        (g.map (·.sales_product)).sum }

/-! ## DataProcessor.process -/

/-- The feature-frame sort key of the orchestrator:
sort_values(by=[product_id, brand_id, store_id, date]). -/
def featKey (f : FeatureRow) : Int × Int × Int × Int :=
  (f.product_id, f.brand_id, f.store_id, f.date)

/-- Row order used to sort the feature frame. -/
def featLE (f g : FeatureRow) : Prop := lexLE4 (featKey f) (featKey g)

instance : DecidableRel featLE := fun f g => by
  unfold featLE; exact inferInstance

/-- Row order used to sort the scored frame: WMAPE descending. -/
def wmapeGE (a b : WmapeRow) : Prop := b.WMAPE ≤ a.WMAPE

instance : DecidableRel wmapeGE := fun a b => by
  unfold wmapeGE; exact inferInstance

instance : IsTotal WmapeRow wmapeGE where
  total a b := by unfold wmapeGE; exact (le_total b.WMAPE a.WMAPE)

instance : IsTrans WmapeRow wmapeGE where
  trans a b c hab hbc := by
    unfold wmapeGE at hab hbc ⊢; exact hbc.trans hab

/-- DataProcessor.process: load and merge, inclusive date filter, feature
computation, sort of the feature frame, scoring, and the WMAPE-descending
sort truncated to top_n.  The two returned lists are the two frames the
source hands to to_csv.  sort_values is modelled as a sort by the given
key columns; the source's default quicksort fixes no particular order
among key ties. -/
def process (sales : List SalesRow) (product : List ProductRow)
    (brand : List BrandRow) (store : List StoreRow)
    (min_date max_date : Int) (top_n : Nat) : List FeatureRow × List WmapeRow :=
  let sales_df := load_data sales product brand store
  let filtered := sales_df.filter fun r => decide (min_date ≤ r.date ∧ r.date ≤ max_date)
  let feature_df := List.insertionSort featLE (compute_features filtered)
  let wmape_df := (List.insertionSort wmapeGE (compute_wmape feature_df)).take top_n
  (feature_df, wmape_df)

/-! ## Spec-side chronological definitions (refinement targets) -/

/-- Date order on merged rows. -/
def dateLE (a b : MergedRow) : Prop := a.date ≤ b.date

instance : DecidableRel dateLE := fun a b => by
  unfold dateLE; exact inferInstance

/-- The rows of a group arranged in date-ascending order, as the spec's
wording demands before a window or lag is read off. -/
def chronOrder (g : List MergedRow) : List MergedRow :=
  List.insertionSort dateLE g

/-- Follows the wording of the spec, not the source: MA7_P of the row at
chronological position j of r's (product_id, store_id) group is the mean
of up to the 7 most recent sales_product values of the group taken in
date-ascending order ending at that row. -/
def spec_MA7_P (rows : List MergedRow) (r : MergedRow) (j : Nat) : ℚ :=
  windowMean7 ((chronOrder (grp pkey rows r)).map (·.quantity)) j

/-- The key of a scorer output row, for reading group identity back off
the output table. -/
def wkeyOut (w : WmapeRow) : Int × Int × Int := (w.product_id, w.store_id, w.brand_id)

/-- An output row of the scorer, assembled from its group key and value:
the shape of the rows compute_wmape builds. -/
def mkWmapeRow (k : Int × Int × Int) (v : ℚ) : WmapeRow :=
  { product_id := k.1, store_id := k.2.1, brand_id := k.2.2, WMAPE := v }

/-! ## Concrete inputs used by counterexamples and witnesses -/

/-- A merged row of the single (product 1, store 1, brand 5) group. -/
def mrow1 (d : Int) (q : ℚ) : MergedRow :=
  { date := d, product := 1, store := 1, quantity := q, brand := 10, id_brand := 5 }

/-- Two rows of one group arriving in date-descending order. -/
def exC1 : List MergedRow := [mrow1 2 5, mrow1 1 1]

/-- Eight rows of one group arriving in date-descending order, the
quantity of each equal to its date. -/
def exC3 : List MergedRow :=
  [mrow1 8 8, mrow1 7 7, mrow1 6 6, mrow1 5 5, mrow1 4 4, mrow1 3 3, mrow1 2 2, mrow1 1 1]

/-- Three rows of one group arriving in date-ascending order. -/
def exSorted3 : List MergedRow := [mrow1 1 1, mrow1 2 5, mrow1 3 6]

/-- Eight rows of one group arriving in date-ascending order, the
quantity of each equal to its date. -/
def exSorted8 : List MergedRow :=
  [mrow1 1 1, mrow1 2 2, mrow1 3 3, mrow1 4 4, mrow1 5 5, mrow1 6 6, mrow1 7 7, mrow1 8 8]

/-- Two products of the same brand sold at the same store on the same day. -/
def exC8 : List MergedRow :=
  [ { date := 1, product := 1, store := 1, quantity := 1, brand := 10, id_brand := 5 },
    { date := 1, product := 2, store := 1, quantity := 1, brand := 10, id_brand := 5 } ]

/-- A feature row surviving dropna whose group total of sales_product is
zero. -/
def exC2row : FeatureRow :=
  { product_id := 1, store_id := 1, brand_id := 1, date := 1, sales_product := 0,
    MA7_P := 5, LAG7_P := some 0, sales_brand := 0, MA7_B := 5, LAG7_B := some 0,
    sales_store := 0, MA7_S := 5, LAG7_S := some 0 }

/-- A feature row with no missing values, group (1, 1, 1), realized 2,
forecast 1. -/
def exC5row : FeatureRow :=
  { product_id := 1, store_id := 1, brand_id := 1, date := 1, sales_product := 2,
    MA7_P := 1, LAG7_P := some 0, sales_brand := 2, MA7_B := 1, LAG7_B := some 0,
    sales_store := 2, MA7_S := 1, LAG7_S := some 0 }

/-- Product dimension used by the pipeline examples. -/
def exProd : List ProductRow := [{ id := 1, brand := 10 }]

/-- Brand dimension used by the pipeline examples. -/
def exBrand : List BrandRow := [{ name := 10, id := 5 }]

/-- Store dimension used by the pipeline examples. -/
def exStore : List StoreRow := [{ id := 1 }, { id := 2 }]

/-- A sales fact row for the pipeline examples. -/
def srow (d : Int) (st : Int) (q : ℚ) : SalesRow :=
  { date := d, product := 1, store := st, quantity := q }

/-- Two sales rows of one store, arriving date-ascending. -/
def c7A : List SalesRow := [srow 1 1 1, srow 2 1 5]

/-- The same two rows of one store, pre-shuffled (swapped). -/
def c7B : List SalesRow := [srow 2 1 5, srow 1 1 1]

/-- Two sales rows at two different stores. -/
def c7W1 : List SalesRow := [srow 1 1 1, srow 1 2 5]

/-- The same two rows pre-shuffled; the swap crosses stores, so each
store's subsequence is unchanged. -/
def c7W2 : List SalesRow := [srow 1 2 5, srow 1 1 1]

/-! ## Helper lemmas about the feature traversal -/

theorem goFeat_map_id (whole : List MergedRow) :
    ∀ (rest seen : List MergedRow),
      (goFeat whole seen rest).map
          (fun f => (f.product_id, f.store_id, f.brand_id, f.date, f.sales_product)) =
        rest.map (fun r => (r.product, r.store, r.id_brand, r.date, r.quantity))
  | [], _ => rfl
  | r :: rest, seen => by
    rw [show goFeat whole seen (r :: rest) =
        featRow whole seen r :: goFeat whole (seen ++ [r]) rest from rfl]
    rw [List.map_cons, List.map_cons, goFeat_map_id whole rest (seen ++ [r])]
    rfl

theorem goFeat_getD (whole : List MergedRow) :
    ∀ (rest seen : List MergedRow) (i : Nat), i < rest.length →
      (goFeat whole seen rest).getD i default =
        featRow whole (seen ++ rest.take i) (rest.getD i default)
  | [], _, i, hi => absurd hi (by simp)
  | r :: rest, seen, 0, _ => by
    rw [show goFeat whole seen (r :: rest) =
        featRow whole seen r :: goFeat whole (seen ++ [r]) rest from rfl]
    simp only [List.getD_cons_zero, List.take_zero, List.append_nil]
  | r :: rest, seen, i + 1, hi => by
    have h := goFeat_getD whole rest (seen ++ [r]) i (by simpa using hi)
    rw [List.append_assoc, List.singleton_append] at h
    rw [show goFeat whole seen (r :: rest) =
        featRow whole seen r :: goFeat whole (seen ++ [r]) rest from rfl,
      List.getD_cons_succ, List.take_succ_cons, List.getD_cons_succ]
    exact h

theorem grpRank_take_lt {K : Type} [DecidableEq K] (k : MergedRow → K)
    (rows : List MergedRow) (i : Nat) (hi : i < rows.length) :
    grpRank k (rows.take i) (rows.getD i default) <
      (grp k rows (rows.getD i default)).length := by
  have hgd : rows.getD i default = rows[i] := by
    rw [List.getD_eq_getElem?_getD, List.getElem?_eq_getElem hi]
    rfl
  have htake : rows.take (i + 1) = rows.take i ++ [rows[i]] := by
    rw [List.take_succ, List.getElem?_eq_getElem hi]
    rfl
  rw [grp, ← List.countP_eq_length_filter, grpRank]
  set p : MergedRow → Bool := fun x => decide (k x = k (rows.getD i default)) with hp
  have hpi : p rows[i] = true := by
    rw [hp, hgd]
    simp
  have h1 : (rows.take (i + 1)).countP p = (rows.take i).countP p + 1 := by
    rw [htake, List.countP_append]
    simp [List.countP_cons, hpi]
  have h2 : (rows.take (i + 1)).countP p ≤ rows.countP p := by
    calc (rows.take (i + 1)).countP p
        ≤ (rows.take (i + 1)).countP p + (rows.drop (i + 1)).countP p :=
          Nat.le_add_right _ _
      _ = rows.countP p := by rw [← List.countP_append, List.take_append_drop]
  omega

theorem rolling7mean_getD (xs : List ℚ) (j : Nat) (hj : j < xs.length) :
    (rolling7mean xs).getD j 0 = windowMean7 xs j := by
  rw [rolling7mean, List.getD_eq_getElem?_getD, List.getElem?_map, List.getElem?_range hj]
  rfl

theorem shift7_getD (xs : List ℚ) (j : Nat) (hj : j < xs.length) :
    (shift7 xs).getD j none = if j < 7 then none else xs[j - 7]? := by
  rw [shift7, List.getD_eq_getElem?_getD, List.getElem?_map, List.getElem?_range hj]
  rfl

/-! ## C9: compute_features is a per-row decoration of its input -/

/-- C9: compute_features returns exactly one output row per input row, in
the same order; each output row's product_id, store_id, brand_id, date and
sales_product equal the input row's product, store, id_brand, date and
quantity; no input row is dropped, duplicated or reordered. -/
theorem compute_features_frame (rows : List MergedRow) :
    (compute_features rows).length = rows.length ∧
      (compute_features rows).map
          (fun f => (f.product_id, f.store_id, f.brand_id, f.date, f.sales_product)) =
        rows.map (fun r => (r.product, r.store, r.id_brand, r.date, r.quantity)) := by
  have h := goFeat_map_id rows rows []
  refine ⟨?_, h⟩
  have h2 := congrArg List.length h
  simpa using h2

/-! ## C10: the q4 merge and median -/

theorem merge_sorted_arrays_perm (xs ys : List ℚ) :
    (merge_sorted_arrays xs ys).Perm (xs ++ ys) := by
  induction xs, ys using merge_sorted_arrays.induct with
  | case1 ys => simp [merge_sorted_arrays]
  | case2 x xs => simp [merge_sorted_arrays]
  | case3 x xs y ys h ih =>
    rw [merge_sorted_arrays, if_pos h]
    simpa using ih.cons x
  | case4 x xs y ys h ih =>
    rw [merge_sorted_arrays, if_neg h]
    exact (ih.cons y).trans List.perm_middle.symm

theorem merge_sorted_arrays_sorted : ∀ (xs ys : List ℚ),
    xs.Sorted (· ≤ ·) → ys.Sorted (· ≤ ·) →
      (merge_sorted_arrays xs ys).Sorted (· ≤ ·) := by
  intro xs ys
  induction xs, ys using merge_sorted_arrays.induct with
  | case1 ys => intro _ hy; simpa [merge_sorted_arrays] using hy
  | case2 x xs => intro hx _; simpa [merge_sorted_arrays] using hx
  | case3 x xs y ys h ih =>
    intro hx hy
    rw [merge_sorted_arrays, if_pos h, List.sorted_cons]
    rw [List.sorted_cons] at hx
    refine ⟨?_, ih hx.2 hy⟩
    intro b hb
    have hb2 : b ∈ xs ++ (y :: ys) := (merge_sorted_arrays_perm xs (y :: ys)).mem_iff.mp hb
    rcases List.mem_append.mp hb2 with h1 | h1
    · exact hx.1 b h1
    · rcases List.mem_cons.mp h1 with rfl | h1
      · exact h
      · exact h.trans ((List.sorted_cons.mp hy).1 b h1)
  | case4 x xs y ys h ih =>
    intro hx hy
    rw [merge_sorted_arrays, if_neg h, List.sorted_cons]
    rw [List.sorted_cons] at hy
    refine ⟨?_, ih hx hy.2⟩
    intro b hb
    have hyx : y ≤ x := le_of_lt (lt_of_not_le h)
    have hb2 : b ∈ (x :: xs) ++ ys := (merge_sorted_arrays_perm (x :: xs) ys).mem_iff.mp hb
    rcases List.mem_append.mp hb2 with h1 | h1
    · rcases List.mem_cons.mp h1 with rfl | h1
      · exact hyx
      · exact hyx.trans ((List.sorted_cons.mp hx).1 b h1)
    · exact hy.1 b h1

/-- C10: for ascending-sorted inputs of positive combined length, the
two-pointer merge returns an ascending-sorted permutation of the
concatenation, and find_median of that result is the middle element of
the sorted combined list when the combined length is odd and the mean of
the two middle elements when it is even. -/
theorem median_of_merged (xs ys : List ℚ) (hx : xs.Sorted (· ≤ ·))
    (hy : ys.Sorted (· ≤ ·)) (hpos : 0 < (xs ++ ys).length) :
    (merge_sorted_arrays xs ys).Sorted (· ≤ ·) ∧
      (merge_sorted_arrays xs ys).Perm (xs ++ ys) ∧
      find_median (merge_sorted_arrays xs ys) =
        (if (xs ++ ys).length % 2 = 1 then
          (List.insertionSort (· ≤ ·) (xs ++ ys)).getD ((xs ++ ys).length / 2) 0
        else
          ((List.insertionSort (· ≤ ·) (xs ++ ys)).getD ((xs ++ ys).length / 2 - 1) 0 +
            (List.insertionSort (· ≤ ·) (xs ++ ys)).getD ((xs ++ ys).length / 2) 0) / 2) := by
  have hperm := merge_sorted_arrays_perm xs ys
  have hsorted := merge_sorted_arrays_sorted xs ys hx hy
  have hm : merge_sorted_arrays xs ys = List.insertionSort (· ≤ ·) (xs ++ ys) := by
    refine List.eq_of_perm_of_sorted ?_ hsorted (List.sorted_insertionSort _ _)
    exact hperm.trans (List.perm_insertionSort _ _).symm
  refine ⟨hsorted, hperm, ?_⟩
  have hlen : (List.insertionSort (· ≤ ·) (xs ++ ys)).length = (xs ++ ys).length :=
    (List.perm_insertionSort _ _).length_eq
  rw [hm, find_median]
  simp only [hlen]

/-- Witness for C10 at xs = [1, 3], ys = [2]. -/
theorem median_of_merged_witness :
    (merge_sorted_arrays [1, 3] [2]).Sorted (· ≤ ·) ∧
      (merge_sorted_arrays [1, 3] [2]).Perm ([1, 3] ++ [2]) ∧
      find_median (merge_sorted_arrays [1, 3] [2]) = 2 := by
  have h := median_of_merged [1, 3] [2] (by decide) (by decide) (by decide)
  refine ⟨h.1, h.2.1, ?_⟩
  rw [h.2.2]
  decide

/-! ## C1: MA7_P and chronological order -/

/-- C1 counterexample: the claim demands the chronological trailing mean
regardless of arrival order.  In exC1 the two rows of one group arrive in
date-descending order; the first arriving row is chronologically last
(position 1) of its group, where the claimed chronological mean is 3, but
the code computes the rolling mean over arrival order and produces 5. -/
theorem MA7P_arrival_order_counterexample :
    chronOrder (grp pkey exC1 (exC1.getD 0 default)) = [mrow1 1 1, mrow1 2 5] ∧
      ((compute_features exC1).getD 0 default).MA7_P = 5 ∧
      spec_MA7_P exC1 (exC1.getD 0 default) 1 = 3 ∧
      ((compute_features exC1).getD 0 default).MA7_P ≠
        spec_MA7_P exC1 (exC1.getD 0 default) 1 := by
  have hgrp : (grp pkey exC1 (exC1.getD 0 default)).map (·.quantity) = [5, 1] := by
    decide
  have hchron : (chronOrder (grp pkey exC1 (exC1.getD 0 default))).map (·.quantity) =
      [1, 5] := by
    decide
  have hchar := goFeat_getD exC1 exC1 [] 0 (by decide)
  have h2 : ((compute_features exC1).getD 0 default).MA7_P = 5 := by
    rw [show compute_features exC1 = goFeat exC1 [] exC1 from rfl, hchar]
    show (rolling7mean ((grp pkey exC1 (exC1.getD 0 default)).map (·.quantity))).getD
        (grpRank pkey ([] ++ List.take 0 exC1) (exC1.getD 0 default)) 0 = 5
    rw [hgrp, show grpRank pkey ([] ++ List.take 0 exC1) (exC1.getD 0 default) = 0 from rfl]
    rw [rolling7mean_getD _ _ (by norm_num)]
    have hw : ((([5, 1] : List ℚ).take (0 + 1)).drop (0 + 1 - 7)) = [5] := by decide
    show ((([5, 1] : List ℚ).take (0 + 1)).drop (0 + 1 - 7)).sum /
        (((([5, 1] : List ℚ).take (0 + 1)).drop (0 + 1 - 7)).length : ℚ) = 5
    rw [hw]
    norm_num
  have h3 : spec_MA7_P exC1 (exC1.getD 0 default) 1 = 3 := by
    show windowMean7 ((chronOrder (grp pkey exC1 (exC1.getD 0 default))).map (·.quantity)) 1 = 3
    rw [hchron]
    have hw : ((([1, 5] : List ℚ).take (1 + 1)).drop (1 + 1 - 7)) = [1, 5] := by decide
    show ((([1, 5] : List ℚ).take (1 + 1)).drop (1 + 1 - 7)).sum /
        (((([1, 5] : List ℚ).take (1 + 1)).drop (1 + 1 - 7)).length : ℚ) = 3
    rw [hw]
    norm_num
  refine ⟨by decide, h2, h3, ?_⟩
  rw [h2, h3]
  norm_num

/-- C1 (amended): provided the rows of the (product_id, store_id) group of
row i appear in the input in nondecreasing date order, MA7_P of the i-th
output row equals the spec's chronological trailing mean: the mean of up
to the 7 most recent sales_product values of the group taken in
date-ascending order ending at that row, which sits at chronological
position grpRank of its group. -/
theorem MA7P_chronological_of_sorted (rows : List MergedRow) (i : Nat)
    (hi : i < rows.length)
    (hsort : (grp pkey rows (rows.getD i default)).Sorted dateLE) :
    ((compute_features rows).getD i default).MA7_P =
      spec_MA7_P rows (rows.getD i default)
        (grpRank pkey (rows.take i) (rows.getD i default)) := by
  have hchar := goFeat_getD rows rows [] i hi
  have hrank := grpRank_take_lt pkey rows i hi
  have hma : ((compute_features rows).getD i default).MA7_P =
      (rolling7mean ((grp pkey rows (rows.getD i default)).map (·.quantity))).getD
        (grpRank pkey (rows.take i) (rows.getD i default)) 0 := by
    rw [show compute_features rows = goFeat rows [] rows from rfl, hchar, List.nil_append]
    rfl
  rw [hma, rolling7mean_getD _ _ (by simpa using hrank)]
  rw [spec_MA7_P, chronOrder, hsort.insertionSort_eq]

/-- Witness for C1 at a three-row date-ascending group, row index 2. -/
theorem MA7P_chronological_witness :
    ((compute_features exSorted3).getD 2 default).MA7_P =
      spec_MA7_P exSorted3 (exSorted3.getD 2 default)
        (grpRank pkey (exSorted3.take 2) (exSorted3.getD 2 default)) :=
  MA7P_chronological_of_sorted exSorted3 2 (by decide) (by decide)

/-! ## C3: LAG7_P and chronological order -/

/-- C3 counterexample: in exC3 the eight rows of one group arrive in
date-descending order, so the 8th chronological row is the first arriving
row; the claim demands its LAG7_P equal the 1st chronological row's
sales_product (namely 1), but the code shifts over arrival order and
leaves it missing. -/
theorem LAG7P_arrival_order_counterexample :
    (chronOrder (grp pkey exC3 (exC3.getD 0 default))).getD 7 default =
        exC3.getD 0 default ∧
      ((compute_features exC3).getD 0 default).LAG7_P = none ∧
      ((chronOrder (grp pkey exC3 (exC3.getD 0 default))).getD 0 default).quantity = 1 ∧
      ((compute_features exC3).getD 0 default).LAG7_P ≠ some 1 := by
  decide

/-- C3 (amended): provided the rows of the (product_id, store_id) group of
row i appear in the input in nondecreasing date order, the row at
chronological position 7 (the 8th row) of its group has LAG7_P equal to
the sales_product of the group's 1st chronological row, and every row at
chronological position below 7 (the first seven rows) has LAG7_P
missing. -/
theorem LAG7P_eighth_of_sorted (rows : List MergedRow) (i : Nat)
    (hi : i < rows.length)
    (hsort : (grp pkey rows (rows.getD i default)).Sorted dateLE) :
    (grpRank pkey (rows.take i) (rows.getD i default) = 7 →
      ((compute_features rows).getD i default).LAG7_P =
        some (((chronOrder (grp pkey rows (rows.getD i default))).getD 0 default).quantity)) ∧
    (grpRank pkey (rows.take i) (rows.getD i default) < 7 →
      ((compute_features rows).getD i default).LAG7_P = none) := by
  have hchar := goFeat_getD rows rows [] i hi
  have hrank := grpRank_take_lt pkey rows i hi
  have hlag : ((compute_features rows).getD i default).LAG7_P =
      (shift7 ((grp pkey rows (rows.getD i default)).map (·.quantity))).getD
        (grpRank pkey (rows.take i) (rows.getD i default)) none := by
    rw [show compute_features rows = goFeat rows [] rows from rfl, hchar, List.nil_append]
    rfl
  constructor
  · intro h7
    have h0 : 0 < (grp pkey rows (rows.getD i default)).length := by omega
    rw [hlag, h7, shift7_getD _ _ (by simp only [List.length_map]; omega)]
    rw [if_neg (by omega)]
    rw [chronOrder, hsort.insertionSort_eq]
    rw [show (7 : Nat) - 7 = 0 from rfl]
    have e0 : (grp pkey rows (rows.getD i default))[0]? =
        some (grp pkey rows (rows.getD i default))[0] := List.getElem?_eq_getElem h0
    have e1 : (grp pkey rows (rows.getD i default)).getD 0 default =
        (grp pkey rows (rows.getD i default))[0] := by
      rw [List.getD_eq_getElem?_getD, e0]
      rfl
    rw [List.getElem?_map, e0, e1]
    rfl
  · intro hlt
    rw [hlag, shift7_getD _ _ (by simp only [List.length_map]; omega), if_pos hlt]

/-- Witness for C3 at an eight-row date-ascending group, row index 7. -/
theorem LAG7P_eighth_witness :
    ((compute_features exSorted8).getD 7 default).LAG7_P =
      some (((chronOrder (grp pkey exSorted8 (exSorted8.getD 7 default))).getD 0 default).quantity) :=
  (LAG7P_eighth_of_sorted exSorted8 7 (by decide) (by decide)).1 (by decide)

/-! ## C4: inner-join row count -/

theorem load_data_eq_flatMap (sales : List SalesRow) (product : List ProductRow)
    (brand : List BrandRow) (store : List StoreRow) :
    load_data sales product brand store = sales.flatMap (rowBlock product brand store) :=
  rfl

theorem length_filter_le_one {α K : Type} [DecidableEq K] (key : α → K) (l : List α)
    (h : (l.map key).Nodup) (k : K) :
    (l.filter fun x => decide (key x = k)).length ≤ 1 := by
  induction l with
  | nil => simp
  | cons a t ih =>
    rw [List.map_cons, List.nodup_cons] at h
    rw [List.filter_cons]
    by_cases ha : key a = k
    · rw [if_pos (by simpa using ha)]
      have ht : t.filter (fun x => decide (key x = k)) = [] := by
        rw [List.filter_eq_nil_iff]
        intro x hx
        simp only [decide_eq_true_eq]
        intro hk
        exact h.1 (by rw [ha, ← hk]; exact List.mem_map_of_mem _ hx)
      rw [ht]
      simp
    · rw [if_neg (by simpa using ha)]
      exact ih h.2

theorem rowBlock_length (product : List ProductRow) (brand : List BrandRow)
    (store : List StoreRow) (s : SalesRow)
    (hp : (product.map (·.id)).Nodup) (hb : (brand.map (·.name)).Nodup)
    (hst : (store.map (·.id)).Nodup) :
    (rowBlock product brand store s).length ≤ 1 ∧
      ((rowBlock product brand store s).length = 1 ↔
        (∃ p ∈ product, p.id = s.product ∧ ∃ b ∈ brand, b.name = p.brand) ∧
          ∃ t ∈ store, t.id = s.store) := by
  have hple := length_filter_le_one (·.id) product hp s.product
  have hsle := length_filter_le_one (·.id) store hst s.store
  rcases hpf : product.filter (fun x => decide (x.id = s.product)) with _ | ⟨p0, ptl⟩
  · have hblock : rowBlock product brand store s = [] := by
      rw [rowBlock, hpf]
      rfl
    rw [hblock]
    refine ⟨by simp, ?_⟩
    simp only [List.length_nil]
    constructor
    · omega
    · rintro ⟨⟨p, hpmem, hpid, _⟩, _⟩
      have hmem : p ∈ product.filter (fun x => decide (x.id = s.product)) :=
        List.mem_filter.mpr ⟨hpmem, by simpa using hpid⟩
      rw [hpf] at hmem
      exact absurd hmem (List.not_mem_nil p)
  · have hptl : ptl = [] := by
      rw [hpf] at hple
      simp only [List.length_cons] at hple
      exact List.eq_nil_of_length_eq_zero (by omega)
    subst hptl
    have hp0 : p0 ∈ product ∧ p0.id = s.product := by
      have := List.mem_filter.mp (hpf ▸ List.mem_cons_self p0 [])
      exact ⟨this.1, by simpa using this.2⟩
    have hble := length_filter_le_one (·.name) brand hb p0.brand
    have hblock : rowBlock product brand store s =
        (brand.filter fun b => decide (b.name = p0.brand)).flatMap fun b =>
          (store.filter fun _st => decide (_st.id = s.store)).map fun _st =>
            { date := s.date, product := s.product, store := s.store,
              quantity := s.quantity, brand := p0.brand, id_brand := b.id } := by
      rw [rowBlock, hpf]
      simp
    rcases hbf : brand.filter (fun x => decide (x.name = p0.brand)) with _ | ⟨b0, btl⟩
    · have hblock2 : rowBlock product brand store s = [] := by
        rw [hblock, hbf]
        rfl
      rw [hblock2]
      refine ⟨by simp, ?_⟩
      simp only [List.length_nil]
      constructor
      · omega
      · rintro ⟨⟨p, hpmem, hpid, b, hbmem, hbname⟩, _⟩
        have hpp : p = p0 := by
          have hmem : p ∈ product.filter (fun x => decide (x.id = s.product)) :=
            List.mem_filter.mpr ⟨hpmem, by simpa using hpid⟩
          rw [hpf] at hmem
          simpa using hmem
        subst hpp
        have hmem : b ∈ brand.filter (fun x => decide (x.name = p.brand)) :=
          List.mem_filter.mpr ⟨hbmem, by simpa using hbname⟩
        rw [hbf] at hmem
        exact absurd hmem (List.not_mem_nil b)
    · have hbtl : btl = [] := by
        rw [hbf] at hble
        simp only [List.length_cons] at hble
        exact List.eq_nil_of_length_eq_zero (by omega)
      subst hbtl
      have hb0 : b0 ∈ brand ∧ b0.name = p0.brand := by
        have := List.mem_filter.mp (hbf ▸ List.mem_cons_self b0 [])
        exact ⟨this.1, by simpa using this.2⟩
      have hblock3 : (rowBlock product brand store s).length =
          (store.filter fun _st => decide (_st.id = s.store)).length := by
        rw [hblock, hbf]
        simp
      rw [hblock3]
      refine ⟨hsle, ?_⟩
      constructor
      · intro h1
        have hne : 0 < (store.filter fun _st => decide (_st.id = s.store)).length := by omega
        rcases hsf : store.filter (fun x => decide (x.id = s.store)) with _ | ⟨t0, ttl⟩
        · rw [hsf] at hne
          simp at hne
        · have ht0 := List.mem_filter.mp (hsf ▸ List.mem_cons_self t0 ttl)
          exact ⟨⟨p0, hp0.1, hp0.2, b0, hb0.1, hb0.2⟩, t0, ht0.1, by simpa using ht0.2⟩
      · rintro ⟨-, t, htmem, htid⟩
        have hmem : t ∈ store.filter (fun x => decide (x.id = s.store)) :=
          List.mem_filter.mpr ⟨htmem, by simpa using htid⟩
        have hpos : 0 < (store.filter fun x => decide (x.id = s.store)).length :=
          List.length_pos.mpr (List.ne_nil_of_mem hmem)
        omega

/-- C4: with duplicate-free dimension keys, the merged output has at most
one row per sales fact row, so its row count never exceeds the fact
table's, and equals it exactly when every fact row finds a product with
its product id, a brand with that product's brand name, and a store with
its store id. -/
theorem load_data_row_count (sales : List SalesRow) (product : List ProductRow)
    (brand : List BrandRow) (store : List StoreRow)
    (hp : (product.map (·.id)).Nodup) (hb : (brand.map (·.name)).Nodup)
    (hst : (store.map (·.id)).Nodup) :
    (load_data sales product brand store).length ≤ sales.length ∧
      ((load_data sales product brand store).length = sales.length ↔
        ∀ s ∈ sales, (∃ p ∈ product, p.id = s.product ∧ ∃ b ∈ brand, b.name = p.brand) ∧
          ∃ t ∈ store, t.id = s.store) := by
  induction sales with
  | nil => simp [load_data]
  | cons a rest ih =>
    have hblock := rowBlock_length product brand store a hp hb hst
    have hld : load_data (a :: rest) product brand store =
        rowBlock product brand store a ++ load_data rest product brand store := rfl
    rw [hld, List.length_append, List.length_cons, List.forall_mem_cons]
    rcases ih with ⟨ih1, ih2⟩
    constructor
    · omega
    · constructor
      · intro he
        have hb1 : (rowBlock product brand store a).length = 1 := by omega
        exact ⟨hblock.2.mp hb1, ih2.mp (by omega)⟩
      · rintro ⟨ha, hrest⟩
        have h1 := hblock.2.mpr ha
        have h2 := ih2.mpr hrest
        omega

/-- Witness for C4 on singleton tables whose keys all match. -/
theorem load_data_row_count_witness :
    (load_data [srow 1 1 2] exProd exBrand exStore).length ≤
        ([srow 1 1 2] : List SalesRow).length ∧
      (load_data [srow 1 1 2] exProd exBrand exStore).length = 1 := by
  have h := load_data_row_count [srow 1 1 2] exProd exBrand exStore
    (by decide) (by decide) (by decide)
  exact ⟨h.1, by decide⟩

/-! ## Helper lemmas about the scorer -/

theorem map_wkeyOut_mk (L : List (Int × Int × Int)) (g : Int × Int × Int → ℚ) :
    (L.map fun k => mkWmapeRow k (g k)).map wkeyOut = L := by
  rw [List.map_map]
  have h : ∀ k ∈ L, (wkeyOut ∘ fun k => mkWmapeRow k (g k)) k = id k := fun k _ => rfl
  rw [List.map_congr_left h, List.map_id]

theorem compute_wmape_keys (feature_df : List FeatureRow) :
    (compute_wmape feature_df).map wkeyOut =
      List.insertionSort lexLE3 (((feature_df.filter dropnaRow).map wkey).dedup) :=
  map_wkeyOut_mk _ _

theorem compute_wmape_mem (feature_df : List FeatureRow) (w : WmapeRow)
    (hw : w ∈ compute_wmape feature_df) :
    w.WMAPE =
      (((feature_df.filter dropnaRow).filter fun f => decide (wkey f = wkeyOut w)).map
          fun f => |f.sales_product - f.MA7_P|).sum /
        (((feature_df.filter dropnaRow).filter fun f => decide (wkey f = wkeyOut w)).map
          (·.sales_product)).sum := by
  have hw2 : w ∈ (List.insertionSort lexLE3
      (((feature_df.filter dropnaRow).map wkey).dedup)).map
      (fun k => mkWmapeRow k
        ((((feature_df.filter dropnaRow).filter fun f => decide (wkey f = k)).map
            fun f => |f.sales_product - f.MA7_P|).sum /
          (((feature_df.filter dropnaRow).filter fun f => decide (wkey f = k)).map
            (·.sales_product)).sum)) := hw
  rcases List.mem_map.mp hw2 with ⟨k, _, rfl⟩
  rfl

/-! ## C5: one WMAPE row per surviving group -/

/-- C5: the scorer drops every row with a missing feature value, then
emits exactly one row per remaining (product_id, store_id, brand_id)
group — output keys are pairwise distinct and a key occurs iff some
surviving row carries it — and each output row's WMAPE equals the sum of
absolute errors |sales_product - MA7_P| over the group's surviving rows
divided by the sum of sales_product over those same rows. -/
theorem compute_wmape_groups (feature_df : List FeatureRow) :
    ((compute_wmape feature_df).map wkeyOut).Nodup ∧
      (∀ k : Int × Int × Int, k ∈ (compute_wmape feature_df).map wkeyOut ↔
        k ∈ (feature_df.filter dropnaRow).map wkey) ∧
      ∀ w ∈ compute_wmape feature_df,
        w.WMAPE =
          (((feature_df.filter dropnaRow).filter fun f => decide (wkey f = wkeyOut w)).map
              fun f => |f.sales_product - f.MA7_P|).sum /
            (((feature_df.filter dropnaRow).filter fun f => decide (wkey f = wkeyOut w)).map
              (·.sales_product)).sum := by
  refine ⟨?_, ?_, fun w hw => compute_wmape_mem feature_df w hw⟩
  · rw [compute_wmape_keys]
    exact ((List.perm_insertionSort _ _).nodup_iff).mpr (List.nodup_dedup _)
  · intro k
    rw [compute_wmape_keys]
    simp [List.mem_dedup]

/-- Witness for C5 at a one-row feature table. -/
theorem compute_wmape_groups_witness :
    ((compute_wmape [exC5row]).getD 0 default).WMAPE =
      ((([exC5row].filter dropnaRow).filter fun f =>
          decide (wkey f = wkeyOut ((compute_wmape [exC5row]).getD 0 default))).map
          fun f => |f.sales_product - f.MA7_P|).sum /
        ((([exC5row].filter dropnaRow).filter fun f =>
          decide (wkey f = wkeyOut ((compute_wmape [exC5row]).getD 0 default))).map
          (·.sales_product)).sum := by
  have hlen : 0 < (compute_wmape [exC5row]).length := by decide
  have hmem : (compute_wmape [exC5row]).getD 0 default ∈ compute_wmape [exC5row] := by
    rw [List.getD_eq_getElem?_getD, List.getElem?_eq_getElem hlen]
    exact List.getElem_mem hlen
  exact (compute_wmape_groups [exC5row]).2.2 _ hmem

/-! ## C2: zero-denominator groups -/

/-- C2 counterexample: the single surviving feature row of exC2row forms a
group whose realized sales total is zero, yet compute_wmape still emits a
row for that group — the scorer is a total function with no error signal
— and that row's WMAPE is the unguarded quotient with denominator zero
(the platform's NaN or infinity; under the rational convention the
quotient collapses to 0 rather than an error). -/
theorem wmape_zero_denominator_counterexample :
    (([exC2row].filter dropnaRow).map (·.sales_product)).sum = 0 ∧
      (compute_wmape [exC2row]).length = 1 ∧
      ((compute_wmape [exC2row]).getD 0 default).WMAPE = (5 : ℚ) / 0 := by
  refine ⟨by norm_num [dropnaRow, exC2row], by decide, ?_⟩
  have hlen : 0 < (compute_wmape [exC2row]).length := by decide
  have hmem : (compute_wmape [exC2row]).getD 0 default ∈ compute_wmape [exC2row] := by
    rw [List.getD_eq_getElem?_getD, List.getElem?_eq_getElem hlen]
    exact List.getElem_mem hlen
  rw [compute_wmape_mem [exC2row] _ hmem]
  have hk : wkeyOut ((compute_wmape [exC2row]).getD 0 default) = (1, 1, 1) := by decide
  rw [hk]
  norm_num [dropnaRow, exC2row, wkey]

/-- C2 (amended): the scorer has no explicit error path: it is a total
function, and every (product_id, store_id, brand_id) group surviving the
dropna filter — zero-total groups included — receives an output row, its
WMAPE being the unguarded quotient by the group's possibly-zero sales
total. -/
theorem compute_wmape_no_error_path (feature_df : List FeatureRow) (f : FeatureRow)
    (hf : f ∈ feature_df) (hdrop : dropnaRow f = true) :
    wkey f ∈ (compute_wmape feature_df).map wkeyOut := by
  rw [compute_wmape_keys]
  simp only [List.mem_insertionSort, List.mem_dedup]
  exact List.mem_map_of_mem _ (List.mem_filter.mpr ⟨hf, hdrop⟩)

/-- Witness for C2 at the zero-total group. -/
theorem compute_wmape_no_error_path_witness :
    wkey exC2row ∈ (compute_wmape [exC2row]).map wkeyOut :=
  compute_wmape_no_error_path [exC2row] exC2row (by decide) (by decide)

/-! ## Helper lemmas for the brand/store aggregation invariant -/

theorem sum_map_ite {K : Type} [DecidableEq K] (D : List K) (a : K) (c : ℚ)
    (hD : D.Nodup) (ha : a ∈ D) :
    (D.map fun k => if a = k then c else 0).sum = c := by
  induction D with
  | nil => cases ha
  | cons d D ih =>
    rw [List.nodup_cons] at hD
    rw [List.map_cons, List.sum_cons]
    rcases List.mem_cons.mp ha with rfl | hmem
    · rw [if_pos rfl]
      have hz : (D.map fun k => if a = k then c else 0).sum = 0 := by
        have he : ∀ k ∈ D, (if a = k then c else 0) = (fun _ => (0 : ℚ)) k := by
          intro k hk
          rw [if_neg]
          rintro rfl
          exact hD.1 hk
        rw [List.map_congr_left he]
        simp
      rw [hz, add_zero]
    · rw [if_neg (by rintro rfl; exact hD.1 hmem), ih hD.2 hmem, zero_add]

theorem sum_map_add {α : Type} (l : List α) (f g : α → ℚ) :
    (l.map fun x => f x + g x).sum = (l.map f).sum + (l.map g).sum := by
  induction l with
  | nil => simp
  | cons a t ih =>
    simp only [List.map_cons, List.sum_cons, ih]
    ring

theorem sum_dedup_groups {α K : Type} [DecidableEq K] (key : α → K) (v : α → ℚ)
    (S : List α) :
    (((S.map key).dedup).map fun k =>
      ((S.filter fun x => decide (key x = k)).map v).sum).sum = (S.map v).sum := by
  induction S with
  | nil => simp
  | cons a S ih =>
    have hsplit : ∀ k, (((a :: S).filter fun x => decide (key x = k)).map v).sum =
        (if key a = k then v a else 0) +
          ((S.filter fun x => decide (key x = k)).map v).sum := by
      intro k
      rw [List.filter_cons]
      by_cases h : key a = k
      · rw [if_pos (by simpa using h), List.map_cons, List.sum_cons, if_pos h]
      · rw [if_neg (by simpa using h), if_neg h, zero_add]
    by_cases hmem : key a ∈ S.map key
    · rw [List.map_cons, List.dedup_cons_of_mem hmem]
      have he : ((S.map key).dedup).map
          (fun k => (((a :: S).filter fun x => decide (key x = k)).map v).sum) =
          ((S.map key).dedup).map
          (fun k => (if key a = k then v a else 0) +
            ((S.filter fun x => decide (key x = k)).map v).sum) :=
        List.map_congr_left fun k _ => hsplit k
      rw [he, sum_map_add, ih,
        sum_map_ite _ _ _ (List.nodup_dedup _) (List.mem_dedup.mpr hmem)]
      rw [List.map_cons, List.sum_cons]
    · rw [List.map_cons, List.dedup_cons_of_not_mem hmem, List.map_cons, List.sum_cons]
      rw [hsplit (key a), if_pos rfl]
      have hnil : S.filter (fun x => decide (key x = key a)) = [] := by
        rw [List.filter_eq_nil_iff]
        intro x hx
        simp only [decide_eq_true_eq]
        intro hk
        exact hmem (by rw [← hk]; exact List.mem_map_of_mem _ hx)
      rw [hnil]
      have he : ((S.map key).dedup).map
          (fun k => (((a :: S).filter fun x => decide (key x = k)).map v).sum) =
          ((S.map key).dedup).map
          (fun k => ((S.filter fun x => decide (key x = k)).map v).sum) := by
        refine List.map_congr_left fun k hk => ?_
        rw [hsplit k, if_neg, zero_add]
        rintro rfl
        exact hmem (List.mem_dedup.mp hk)
      rw [he, ih]
      simp

theorem goFeat_map_cols (whole : List MergedRow) :
    ∀ (rest seen : List MergedRow),
      (goFeat whole seen rest).map
          (fun f => (f.store_id, f.date, f.brand_id, f.sales_brand, f.sales_store)) =
        rest.map (fun r =>
          (r.store, r.date, r.id_brand, salesBrandOf whole r, salesStoreOf whole r))
  | [], _ => rfl
  | r :: rest, seen => by
    rw [show goFeat whole seen (r :: rest) =
        featRow whole seen r :: goFeat whole (seen ++ [r]) rest from rfl]
    rw [List.map_cons, List.map_cons, goFeat_map_cols whole rest (seen ++ [r])]
    rfl

/-! ## C8: brand sums versus the store sum -/

/-- C8 counterexample: with two products of one brand at one (store, date),
each product row carries the full brand total 2 in sales_brand, so the sum
of sales_brand over all product rows at that (store, date) is 4, while
sales_store there is 2. -/
theorem sales_brand_sum_counterexample :
    (((compute_features exC8).filter fun f => decide (f.store_id = 1 ∧ f.date = 1)).map
        (·.sales_brand)).sum = 4 ∧
      ((compute_features exC8).getD 0 default).sales_store = 2 ∧
      ((compute_features exC8).getD 0 default).store_id = 1 ∧
      ((compute_features exC8).getD 0 default).date = 1 ∧
      ((4 : ℚ) ≠ 2) := by
  refine ⟨?_, ?_, by decide, by decide, by norm_num⟩
  · norm_num [compute_features, goFeat, featRow, grp, salesBrandOf, salesStoreOf,
      exC8, bdkey, sdkey]
  · norm_num [compute_features, goFeat, featRow, grp, salesBrandOf, salesStoreOf,
      exC8, bdkey, sdkey]

/-- C8 (amended): for every output row f, summing the brand totals
sales_brand over the distinct brands present at f's (store_id, date) —
each brand counted once — yields f.sales_store; counting sales_brand once
per product row instead double-counts brands with several products. -/
theorem sales_brand_partition_sum (rows : List MergedRow) (f : FeatureRow)
    (hf : f ∈ compute_features rows) :
    ((((rows.filter fun y => decide ((y.store, y.date) = (f.store_id, f.date))).map
        (·.id_brand)).dedup).map fun b =>
      (((rows.filter fun y => decide ((y.store, y.date) = (f.store_id, f.date))).filter
          fun y => decide (y.id_brand = b)).map (·.quantity)).sum).sum = f.sales_store := by
  have hcols := goFeat_map_cols rows rows []
  have hmem : (f.store_id, f.date, f.brand_id, f.sales_brand, f.sales_store) ∈
      rows.map (fun r =>
        (r.store, r.date, r.id_brand, salesBrandOf rows r, salesStoreOf rows r)) := by
    rw [← hcols]
    exact List.mem_map_of_mem _ hf
  rcases List.mem_map.mp hmem with ⟨r, _, hreq⟩
  have h1 : r.store = f.store_id := congrArg (·.1) hreq
  have h2 : r.date = f.date := congrArg (·.2.1) hreq
  have h5 : salesStoreOf rows r = f.sales_store := congrArg (·.2.2.2.2) hreq
  rw [← h1, ← h2, ← h5]
  rw [sum_dedup_groups]
  rfl

/-- Witness for C8 at the first output row of the two-product example. -/
theorem sales_brand_partition_witness :
    ((((exC8.filter fun y => decide ((y.store, y.date) =
        (((compute_features exC8).getD 0 default).store_id,
          ((compute_features exC8).getD 0 default).date))).map
        (·.id_brand)).dedup).map fun b =>
      (((exC8.filter fun y => decide ((y.store, y.date) =
          (((compute_features exC8).getD 0 default).store_id,
            ((compute_features exC8).getD 0 default).date))).filter
          fun y => decide (y.id_brand = b)).map (·.quantity)).sum).sum =
      ((compute_features exC8).getD 0 default).sales_store := by
  have hlen : 0 < (compute_features exC8).length := by decide
  have hmem : (compute_features exC8).getD 0 default ∈ compute_features exC8 := by
    rw [List.getD_eq_getElem?_getD, List.getElem?_eq_getElem hlen]
    exact List.getElem_mem hlen
  exact sales_brand_partition_sum exC8 _ hmem

/-! ## Helper lemmas for store-slice invariance of the pipeline -/

theorem filter_filter_of_imp {α : Type} (p q : α → Bool) (l : List α)
    (h : ∀ x, p x = true → q x = true) :
    (l.filter q).filter p = l.filter p := by
  rw [List.filter_filter]
  refine List.filter_congr fun x _ => ?_
  cases hp : p x with
  | true => simp [h x hp]
  | false => simp

theorem countP_filter_of_imp {α : Type} (p q : α → Bool) (l : List α)
    (h : ∀ x, p x = true → q x = true) :
    (l.filter q).countP p = l.countP p := by
  rw [List.countP_eq_length_filter, List.countP_eq_length_filter,
    filter_filter_of_imp p q l h]

theorem grp_filter_store {K : Type} [DecidableEq K] (k : MergedRow → K)
    (hk : ∀ x y : MergedRow, k x = k y → x.store = y.store)
    (whole : List MergedRow) (r : MergedRow) (s : Int) (hr : r.store = s) :
    grp k (whole.filter fun x => decide (x.store = s)) r = grp k whole r := by
  rw [grp, grp]
  refine filter_filter_of_imp _ _ whole fun x hx => ?_
  simp only [decide_eq_true_eq] at hx ⊢
  rw [hk x r hx, hr]

theorem grpRank_filter_store {K : Type} [DecidableEq K] (k : MergedRow → K)
    (hk : ∀ x y : MergedRow, k x = k y → x.store = y.store)
    (seen : List MergedRow) (r : MergedRow) (s : Int) (hr : r.store = s) :
    grpRank k (seen.filter fun x => decide (x.store = s)) r = grpRank k seen r := by
  rw [grpRank, grpRank]
  refine countP_filter_of_imp _ _ seen fun x hx => ?_
  simp only [decide_eq_true_eq] at hx ⊢
  rw [hk x r hx, hr]

theorem salesBrandOf_filter_store (whole : List MergedRow) (x : MergedRow) (s : Int)
    (hx : x.store = s) :
    salesBrandOf (whole.filter fun y => decide (y.store = s)) x = salesBrandOf whole x := by
  rw [salesBrandOf, salesBrandOf,
    grp_filter_store bdkey (fun a b h => congrArg (·.2.1) h) whole x s hx]

theorem salesStoreOf_filter_store (whole : List MergedRow) (x : MergedRow) (s : Int)
    (hx : x.store = s) :
    salesStoreOf (whole.filter fun y => decide (y.store = s)) x = salesStoreOf whole x := by
  rw [salesStoreOf, salesStoreOf,
    grp_filter_store sdkey (fun a b h => congrArg (·.1) h) whole x s hx]

theorem featRow_filter_store (whole seen : List MergedRow) (r : MergedRow) (s : Int)
    (hr : r.store = s) :
    featRow (whole.filter fun x => decide (x.store = s))
        (seen.filter fun x => decide (x.store = s)) r = featRow whole seen r := by
  have hpk : ∀ x y : MergedRow, pkey x = pkey y → x.store = y.store :=
    fun x y h => congrArg (·.2) h
  have hbd : ∀ x y : MergedRow, bdkey x = bdkey y → x.store = y.store :=
    fun x y h => congrArg (·.2.1) h
  have hbs : ∀ x y : MergedRow, bskey x = bskey y → x.store = y.store :=
    fun x y h => congrArg (·.2) h
  have hsd : ∀ x y : MergedRow, sdkey x = sdkey y → x.store = y.store :=
    fun x y h => congrArg (·.1) h
  have hsk : ∀ x y : MergedRow, skey x = skey y → x.store = y.store := fun x y h => h
  have hmapB : (grp bskey whole r).map
      (salesBrandOf (whole.filter fun x => decide (x.store = s))) =
      (grp bskey whole r).map (salesBrandOf whole) := by
    refine List.map_congr_left fun x hx => ?_
    have hx2 := (List.mem_filter.mp hx).2
    simp only [decide_eq_true_eq] at hx2
    exact salesBrandOf_filter_store whole x s (by rw [hbs x r hx2, hr])
  have hmapS : (grp skey whole r).map
      (salesStoreOf (whole.filter fun x => decide (x.store = s))) =
      (grp skey whole r).map (salesStoreOf whole) := by
    refine List.map_congr_left fun x hx => ?_
    have hx2 := (List.mem_filter.mp hx).2
    simp only [decide_eq_true_eq] at hx2
    exact salesStoreOf_filter_store whole x s (by rw [hsk x r hx2, hr])
  simp only [featRow, FeatureRow.mk.injEq, true_and]
  refine ⟨?_, ?_, ?_, ?_, ?_, ?_, ?_, ?_⟩
  · rw [grp_filter_store pkey hpk whole r s hr, grpRank_filter_store pkey hpk seen r s hr]
  · rw [grp_filter_store pkey hpk whole r s hr, grpRank_filter_store pkey hpk seen r s hr]
  · exact salesBrandOf_filter_store whole r s hr
  · rw [grp_filter_store bskey hbs whole r s hr, grpRank_filter_store bskey hbs seen r s hr,
      hmapB]
  · rw [grp_filter_store bskey hbs whole r s hr, grpRank_filter_store bskey hbs seen r s hr,
      hmapB]
  · exact salesStoreOf_filter_store whole r s hr
  · rw [grp_filter_store skey hsk whole r s hr, grpRank_filter_store skey hsk seen r s hr,
      hmapS]
  · rw [grp_filter_store skey hsk whole r s hr, grpRank_filter_store skey hsk seen r s hr,
      hmapS]

theorem goFeat_filter_store (whole : List MergedRow) (s : Int) :
    ∀ (rest seen : List MergedRow),
      (goFeat whole seen rest).filter (fun f => decide (f.store_id = s)) =
        goFeat (whole.filter fun x => decide (x.store = s))
          (seen.filter fun x => decide (x.store = s))
          (rest.filter fun x => decide (x.store = s))
  | [], _ => rfl
  | r :: rest, seen => by
    rw [show goFeat whole seen (r :: rest) =
        featRow whole seen r :: goFeat whole (seen ++ [r]) rest from rfl]
    rw [List.filter_cons, List.filter_cons]
    have hsid : (featRow whole seen r).store_id = r.store := rfl
    by_cases hs : r.store = s
    · rw [if_pos (by simp [hsid, hs]), if_pos (by simp [hs])]
      rw [show goFeat (whole.filter fun x => decide (x.store = s))
          (seen.filter fun x => decide (x.store = s))
          (r :: rest.filter fun x => decide (x.store = s)) =
          featRow (whole.filter fun x => decide (x.store = s))
            (seen.filter fun x => decide (x.store = s)) r ::
          goFeat (whole.filter fun x => decide (x.store = s))
            ((seen.filter fun x => decide (x.store = s)) ++ [r])
            (rest.filter fun x => decide (x.store = s)) from rfl]
      rw [featRow_filter_store whole seen r s hs]
      have happ : (seen ++ [r]).filter (fun x => decide (x.store = s)) =
          (seen.filter fun x => decide (x.store = s)) ++ [r] := by
        rw [List.filter_append]
        simp [hs]
      rw [goFeat_filter_store whole s rest (seen ++ [r]), happ]
    · rw [if_neg (by simp [hsid, hs]), if_neg (by simp [hs])]
      have happ : (seen ++ [r]).filter (fun x => decide (x.store = s)) =
          seen.filter fun x => decide (x.store = s) := by
        rw [List.filter_append]
        simp [hs]
      rw [goFeat_filter_store whole s rest (seen ++ [r]), happ]

theorem compute_features_filter_store (rows : List MergedRow) (s : Int) :
    (compute_features rows).filter (fun f => decide (f.store_id = s)) =
      compute_features (rows.filter fun x => decide (x.store = s)) :=
  goFeat_filter_store rows s rows []

theorem compute_features_perm_of_store_slices (w1 w2 : List MergedRow)
    (h : ∀ s : Int, w1.filter (fun x => decide (x.store = s)) =
      w2.filter (fun x => decide (x.store = s))) :
    (compute_features w1).Perm (compute_features w2) := by
  rw [List.perm_iff_count]
  intro f
  have h1 : List.count f (compute_features w1) =
      List.count f ((compute_features w1).filter fun g => decide (g.store_id = f.store_id)) :=
    (List.count_filter (by simp)).symm
  have h2 : List.count f (compute_features w2) =
      List.count f ((compute_features w2).filter fun g => decide (g.store_id = f.store_id)) :=
    (List.count_filter (by simp)).symm
  rw [h1, h2, compute_features_filter_store, compute_features_filter_store, h f.store_id]

instance : IsTotal (Int × Int × Int × Int) lexLE4 where
  total a b := by
    unfold lexLE4
    rcases le_or_lt a.1 b.1 with h | h
    · rcases lt_or_eq_of_le h with h | h
      · exact Or.inl (Or.inl h)
      · rcases total_of lexLE3 a.2 b.2 with h2 | h2
        · exact Or.inl (Or.inr ⟨h, h2⟩)
        · exact Or.inr (Or.inr ⟨h.symm, h2⟩)
    · exact Or.inr (Or.inl h)

instance : IsTrans (Int × Int × Int × Int) lexLE4 where
  trans a b c hab hbc := by
    unfold lexLE4 at hab hbc ⊢
    rcases hab with h | ⟨he, h2⟩
    · rcases hbc with h3 | ⟨he3, _⟩
      · exact Or.inl (h.trans h3)
      · exact Or.inl (he3 ▸ h)
    · rcases hbc with h3 | ⟨he3, h4⟩
      · exact Or.inl (he ▸ h3)
      · exact Or.inr ⟨he.trans he3, IsTrans.trans _ _ _ h2 h4⟩

instance : IsAntisymm (Int × Int × Int × Int) lexLE4 where
  antisymm a b hab hba := by
    unfold lexLE4 at hab hba
    rcases hab with h | ⟨he, h2⟩
    · rcases hba with h3 | ⟨he3, _⟩
      · exact absurd (h.trans h3) (lt_irrefl _)
      · exact absurd (he3 ▸ h) (lt_irrefl _)
    · rcases hba with h3 | ⟨he3, h4⟩
      · exact absurd (he ▸ h3) (lt_irrefl _)
      · exact Prod.ext he (antisymm h2 h4)

instance : IsTotal FeatureRow featLE where
  total a b := by
    unfold featLE
    exact total_of lexLE4 _ _

instance : IsTrans FeatureRow featLE where
  trans a b c hab hbc := by
    unfold featLE at hab hbc ⊢
    exact IsTrans.trans _ _ _ hab hbc

theorem map_featKey_sorted (l : List FeatureRow) (hs : List.Sorted featLE l) :
    List.Sorted lexLE4 (l.map featKey) :=
  List.Pairwise.map featKey (fun _ _ h => h) hs

theorem eq_of_perm_map_eq_nodup {α K : Type} (key : α → K) :
    ∀ (l1 l2 : List α), l1.Perm l2 → l1.map key = l2.map key →
      (l1.map key).Nodup → l1 = l2
  | [], l2, hp, _, _ => hp.nil_eq
  | a :: t1, [], hp, _, _ => absurd hp.eq_nil (by simp)
  | a :: t1, b :: t2, hp, hmap, hnd => by
    rw [List.map_cons, List.map_cons] at hmap
    injection hmap with hk hmap2
    rw [List.map_cons, List.nodup_cons] at hnd
    have hab : a = b := by
      have hmem : a ∈ b :: t2 := hp.mem_iff.mp (List.mem_cons_self a t1)
      rcases List.mem_cons.mp hmem with h | h
      · exact h
      · exact absurd (hmap2 ▸ List.mem_map_of_mem key h) hnd.1
    subst hab
    rw [eq_of_perm_map_eq_nodup key t1 t2 hp.cons_inv hmap2 hnd.2]

theorem insertionSort_featLE_eq_of_perm (l1 l2 : List FeatureRow)
    (hperm : l1.Perm l2) (hnd : (l1.map featKey).Nodup) :
    List.insertionSort featLE l1 = List.insertionSort featLE l2 := by
  have hp : (List.insertionSort featLE l1).Perm (List.insertionSort featLE l2) :=
    (List.perm_insertionSort _ _).trans (hperm.trans (List.perm_insertionSort _ _).symm)
  have hkeq : (List.insertionSort featLE l1).map featKey =
      (List.insertionSort featLE l2).map featKey :=
    List.eq_of_perm_of_sorted (hp.map featKey)
      (map_featKey_sorted _ (List.sorted_insertionSort featLE l1))
      (map_featKey_sorted _ (List.sorted_insertionSort featLE l2))
  have hnd1 : ((List.insertionSort featLE l1).map featKey).Nodup :=
    (((List.perm_insertionSort featLE l1).map featKey).nodup_iff).mpr hnd
  exact eq_of_perm_map_eq_nodup featKey _ _ hp hkeq hnd1

theorem filter_store_flatMap (sales : List SalesRow) (product : List ProductRow)
    (brand : List BrandRow) (store : List StoreRow) (s : Int) :
    (sales.flatMap (rowBlock product brand store)).filter (fun x => decide (x.store = s)) =
      (sales.filter fun r => decide (r.store = s)).flatMap (rowBlock product brand store) := by
  induction sales with
  | nil => rfl
  | cons a rest ih =>
    have hmem : ∀ m ∈ rowBlock product brand store a, m.store = a.store := by
      intro m hm
      simp only [rowBlock, List.mem_flatMap, List.mem_map, List.mem_filter] at hm
      rcases hm with ⟨p, _, b, _, t, _, rfl⟩
      rfl
    rw [List.flatMap_cons, List.filter_append, ih, List.filter_cons]
    by_cases hs : a.store = s
    · rw [if_pos (by simpa using hs), List.flatMap_cons]
      congr 1
      rw [List.filter_eq_self]
      intro m hm
      simpa using (hmem m hm).trans hs
    · rw [if_neg (by simpa using hs)]
      have hz : (rowBlock product brand store a).filter (fun x => decide (x.store = s)) = [] := by
        rw [List.filter_eq_nil_iff]
        intro m hm
        simp only [decide_eq_true_eq]
        rw [hmem m hm]
        exact hs
      rw [hz, List.nil_append]

theorem filter_comm_pred {α : Type} (p q : α → Bool) (l : List α) :
    (l.filter p).filter q = (l.filter q).filter p := by
  rw [List.filter_filter, List.filter_filter]
  exact List.filter_congr fun x _ => Bool.and_comm (q x) (p x)

/-! ## C7: the pipeline under pre-shuffled input -/

/-- C7 counterexample: swapping the two same-store sales rows of c7A
changes the feature values themselves — run A's MA7_P column sums to 4,
run B's to 8 — so the two runs' outputs are different tables, not
reorderings of each other. -/
theorem process_shuffle_counterexample :
    process c7A exProd exBrand exStore 0 10 5 ≠
      process c7B exProd exBrand exStore 0 10 5 := by
  have hw1 : ((load_data c7A exProd exBrand exStore).filter fun r =>
      decide ((0 : Int) ≤ r.date ∧ r.date ≤ 10)) = [mrow1 1 1, mrow1 2 5] := by
    decide
  have hw2 : ((load_data c7B exProd exBrand exStore).filter fun r =>
      decide ((0 : Int) ≤ r.date ∧ r.date ≤ 10)) = [mrow1 2 5, mrow1 1 1] := by
    decide
  have h1 : (process c7A exProd exBrand exStore 0 10 5).1 =
      List.insertionSort featLE (compute_features [mrow1 1 1, mrow1 2 5]) := by
    show List.insertionSort featLE (compute_features
        ((load_data c7A exProd exBrand exStore).filter fun r =>
          decide ((0 : Int) ≤ r.date ∧ r.date ≤ 10))) = _
    rw [hw1]
  have h2 : (process c7B exProd exBrand exStore 0 10 5).1 =
      List.insertionSort featLE (compute_features [mrow1 2 5, mrow1 1 1]) := by
    show List.insertionSort featLE (compute_features
        ((load_data c7B exProd exBrand exStore).filter fun r =>
          decide ((0 : Int) ≤ r.date ∧ r.date ≤ 10))) = _
    rw [hw2]
  have hcolA : (compute_features [mrow1 1 1, mrow1 2 5]).map (fun f => f.MA7_P) =
      [windowMean7 [1, 5] 0, windowMean7 [1, 5] 1] := rfl
  have hcolB : (compute_features [mrow1 2 5, mrow1 1 1]).map (fun f => f.MA7_P) =
      [windowMean7 [5, 1] 0, windowMean7 [5, 1] 1] := rfl
  have e0 : windowMean7 [1, 5] 0 = 1 := by
    have hw : ((([1, 5] : List ℚ).take (0 + 1)).drop (0 + 1 - 7)) = [1] := by decide
    show ((([1, 5] : List ℚ).take (0 + 1)).drop (0 + 1 - 7)).sum /
        (((([1, 5] : List ℚ).take (0 + 1)).drop (0 + 1 - 7)).length : ℚ) = 1
    rw [hw]
    norm_num
  have e1 : windowMean7 [1, 5] 1 = 3 := by
    have hw : ((([1, 5] : List ℚ).take (1 + 1)).drop (1 + 1 - 7)) = [1, 5] := by decide
    show ((([1, 5] : List ℚ).take (1 + 1)).drop (1 + 1 - 7)).sum /
        (((([1, 5] : List ℚ).take (1 + 1)).drop (1 + 1 - 7)).length : ℚ) = 3
    rw [hw]
    norm_num
  have e2 : windowMean7 [5, 1] 0 = 5 := by
    have hw : ((([5, 1] : List ℚ).take (0 + 1)).drop (0 + 1 - 7)) = [5] := by decide
    show ((([5, 1] : List ℚ).take (0 + 1)).drop (0 + 1 - 7)).sum /
        (((([5, 1] : List ℚ).take (0 + 1)).drop (0 + 1 - 7)).length : ℚ) = 5
    rw [hw]
    norm_num
  have e3 : windowMean7 [5, 1] 1 = 3 := by
    have hw : ((([5, 1] : List ℚ).take (1 + 1)).drop (1 + 1 - 7)) = [5, 1] := by decide
    show ((([5, 1] : List ℚ).take (1 + 1)).drop (1 + 1 - 7)).sum /
        (((([5, 1] : List ℚ).take (1 + 1)).drop (1 + 1 - 7)).length : ℚ) = 3
    rw [hw]
    norm_num
  have hsumA : (((process c7A exProd exBrand exStore 0 10 5).1).map
      (fun f => f.MA7_P)).sum = 4 := by
    rw [h1, List.Perm.sum_eq ((List.perm_insertionSort featLE
      (compute_features [mrow1 1 1, mrow1 2 5])).map (fun f => f.MA7_P))]
    rw [hcolA, List.sum_cons, List.sum_cons, List.sum_nil, e0, e1]
    norm_num
  have hsumB : (((process c7B exProd exBrand exStore 0 10 5).1).map
      (fun f => f.MA7_P)).sum = 8 := by
    rw [h2, List.Perm.sum_eq ((List.perm_insertionSort featLE
      (compute_features [mrow1 2 5, mrow1 1 1])).map (fun f => f.MA7_P))]
    rw [hcolB, List.sum_cons, List.sum_cons, List.sum_nil, e2, e3]
    norm_num
  intro heq
  rw [heq, hsumB] at hsumA
  norm_num at hsumA

/-- C7 (amended): the pipeline is invariant under a pre-shuffle of the
sales rows exactly when the shuffle preserves the relative order of the
rows within each store (every grouping the engine uses refines the store
grouping), provided the feature sort keys (product_id, brand_id,
store_id, date) are pairwise distinct so the final sort admits a unique
order; a shuffle reordering rows inside a store group changes the rolling
and lag values themselves. -/
theorem process_store_order_invariant (sales1 sales2 : List SalesRow)
    (product : List ProductRow) (brand : List BrandRow) (store : List StoreRow)
    (min_date max_date : Int) (top_n : Nat)
    (hshuffle : ∀ s : Int, sales1.filter (fun r => decide (r.store = s)) =
      sales2.filter (fun r => decide (r.store = s)))
    (hkeys : ((compute_features ((load_data sales1 product brand store).filter fun r =>
        decide (min_date ≤ r.date ∧ r.date ≤ max_date))).map featKey).Nodup) :
    process sales1 product brand store min_date max_date top_n =
      process sales2 product brand store min_date max_date top_n := by
  have hslice : ∀ s : Int,
      (((load_data sales1 product brand store).filter fun r =>
        decide (min_date ≤ r.date ∧ r.date ≤ max_date)).filter
        fun x => decide (x.store = s)) =
      (((load_data sales2 product brand store).filter fun r =>
        decide (min_date ≤ r.date ∧ r.date ≤ max_date)).filter
        fun x => decide (x.store = s)) := by
    intro s
    have e1 : ∀ ss : List SalesRow,
        (((load_data ss product brand store).filter fun r =>
          decide (min_date ≤ r.date ∧ r.date ≤ max_date)).filter
          fun x => decide (x.store = s)) =
        ((ss.filter fun r => decide (r.store = s)).flatMap
          (rowBlock product brand store)).filter fun r =>
          decide (min_date ≤ r.date ∧ r.date ≤ max_date) := by
      intro ss
      rw [filter_comm_pred, load_data_eq_flatMap, filter_store_flatMap]
    rw [e1 sales1, e1 sales2, hshuffle s]
  have hperm := compute_features_perm_of_store_slices _ _ hslice
  have hsorted := insertionSort_featLE_eq_of_perm _ _ hperm hkeys
  simp only [process]
  rw [hsorted]

/-- Witness for C7: swapping two rows of different stores leaves every
store subsequence unchanged and the two runs coincide. -/
theorem process_store_order_invariant_witness :
    process c7W1 exProd exBrand exStore 0 10 5 =
      process c7W2 exProd exBrand exStore 0 10 5 := by
  refine process_store_order_invariant c7W1 c7W2 exProd exBrand exStore 0 10 5 ?_ (by decide)
  intro s
  show List.filter (fun r => decide (r.store = s)) [srow 1 1 1, srow 1 2 5] =
    List.filter (fun r => decide (r.store = s)) [srow 1 2 5, srow 1 1 1]
  rcases eq_or_ne s 1 with rfl | h1
  · decide
  · rcases eq_or_ne s 2 with rfl | h2
    · decide
    · have h1b : ¬ ((srow 1 1 1).store = s) := fun hh => h1 hh.symm
      have h2b : ¬ ((srow 1 2 5).store = s) := fun hh => h2 hh.symm
      simp [List.filter_cons, h1b, h2b]
